import Mathlib

/-!
Verification of the flametrace core (`flametrace/core.py`): the strace
parser (`StraceParser`) and the process-forest collapser (`Collapser`).

The embedding is shallow and executable.  Python strings are `String`,
`timedelta`/timestamps are `Int` microseconds — exactly the resolution
Python `datetime`/`timedelta` store — and `int`-or-literal return codes
are the sum type `Ret`.  Mutable Python objects (`Process`, the
`defaultdict` syscall maps) live in append-only stores inside the
`Collapser` state and are addressed by their index, so that Python's
reference aliasing (a cloned child's `syscalls` is the *same object* as
its parent's) is represented faithfully.  A Python exception is an
`Except`-style error value carried next to the state that was current
when the exception was raised.
-/

namespace Flametrace

/-- Python whitespace for `str.split()` with no separator. -/
def pyIsWs (c : Char) : Bool :=
  c = ' ' || c = '\t' || c = '\n' || c = '\r' || c = Char.ofNat 11 || c = Char.ofNat 12

/-- Drop leading whitespace characters. -/
def dropWs (l : List Char) : List Char := l.dropWhile pyIsWs

/-- Take the next whitespace-delimited token and return it with the rest. -/
def takeTok (l : List Char) : List Char × List Char :=
  (l.takeWhile (fun c => !pyIsWs c), l.dropWhile (fun c => !pyIsWs c))

/-- Python `line.split(None, 2)`: split on whitespace runs, at most twice;
the third element keeps its internal whitespace. -/
def pySplitNone2 (s : String) : List String :=
  let l := dropWs s.data
  if l.isEmpty then []
  else
    let (t1, r1) := takeTok l
    let r1 := dropWs r1
    if r1.isEmpty then [t1.asString]
    else
      let (t2, r2) := takeTok r1
      let r2 := dropWs r2
      if r2.isEmpty then [t1.asString, t2.asString]
      else [t1.asString, t2.asString, r2.asString]

/-- Digits of a decimal numeral; `none` when empty or a non-digit appears. -/
def digitsToNat : List Char → Option Nat
  | [] => none
  | l =>
    l.foldl
      (fun acc c =>
        match acc with
        | none => none
        | some n => if c.isDigit then some (n * 10 + (c.toNat - 48)) else none)
      (some 0)

/-- Python `int(s)` on a token: optional sign followed by digits. -/
def pyInt (s : String) : Option Int :=
  match s.data with
  | '-' :: rest => (digitsToNat rest).map (fun n => -(n : Int))
  | '+' :: rest => (digitsToNat rest).map (fun n => (n : Int))
  | l => (digitsToNat l).map (fun n => (n : Int))

/-- Value of a digit list read as an integer part. -/
def natOfDigits (l : List Char) : Nat :=
  l.foldl (fun n c => n * 10 + (c.toNat - 48)) 0

/-- Microseconds represented by an integer part and fraction digits,
rounded to the nearest microsecond with ties to even — the quantization
`datetime.utcfromtimestamp` and `timedelta(seconds=...)` apply to the
`float` the source converts. -/
def usOfParts (ip fp : List Char) : Nat :=
  let head := (fp.take 6) ++ List.replicate (6 - fp.length) '0'
  let scaled := natOfDigits ip * 1000000 + natOfDigits head
  let rest := fp.drop 6
  if rest.isEmpty then scaled
  else
    let restVal := natOfDigits rest
    let mid := 5 * 10 ^ (rest.length - 1)
    if restVal > mid then scaled + 1
    else if restVal < mid then scaled
    else if scaled % 2 = 0 then scaled else scaled + 1

/-- Python `float(s)` on a decimal token (optional sign, digits,
optional `.` and fraction digits), composed with the microsecond
quantization of `datetime`/`timedelta`: the value in microseconds. -/
def pyFloatUs (s : String) : Option Int :=
  let (neg, l) :=
    match s.data with
    | '-' :: rest => (true, rest)
    | '+' :: rest => (false, rest)
    | l => (false, l)
  let ip := l.takeWhile (fun c => c ≠ '.')
  let rest := l.dropWhile (fun c => c ≠ '.')
  let ok := ip.all Char.isDigit
  let (fp, okTail) :=
    match rest with
    | [] => (([] : List Char), true)
    | '.' :: fp => (fp, fp.all Char.isDigit)
    | _ => ([], false)
  if ok && okTail && !(ip.isEmpty && fp.isEmpty) then
    let mag : Int := usOfParts ip fp
    some (if neg then -mag else mag)
  else none

/-- All start positions (ascending) where `sep` occurs in `l`. -/
def subIndexes (sep l : List Char) : List Nat :=
  (List.range (l.length + 1)).filter (fun i => sep.isPrefixOf (l.drop i))

/-- Python `s.split(sep, 1)`: split at the first occurrence of `sep`;
`none` when `sep` does not occur. -/
def pySplitOnce (sep s : String) : Option (String × String) :=
  match (subIndexes sep.data s.data).head? with
  | none => none
  | some i => some ((s.data.take i).asString, (s.data.drop (i + sep.data.length)).asString)

/-- Python `s.rsplit(sep, 1)`: split at the last occurrence of `sep`;
`none` when `sep` does not occur. -/
def pyRsplitOnce (sep s : String) : Option (String × String) :=
  match (subIndexes sep.data s.data).getLast? with
  | none => none
  | some i => some ((s.data.take i).asString, (s.data.drop (i + sep.data.length)).asString)

/-- `s[n:]`. -/
def strDrop (s : String) (n : Nat) : String := (s.data.drop n).asString

/-- `s[:n]`. -/
def strTake (s : String) (n : Nat) : String := (s.data.take n).asString

/-- `s[a:b]` for `0 ≤ a ≤ b`. -/
def pySlice (s : String) (a b : Nat) : String := ((s.data.drop a).take (b - a)).asString

/-- Number of characters. -/
def strLen (s : String) : Nat := s.data.length

/-- Python `s.lstrip()`. -/
def lstripStr (s : String) : String := (dropWs s.data).asString

/-- `s.split(c)[0]`: the prefix strictly before the first `c`
(the whole string when `c` is absent). -/
def strUpToChar (s : String) (c : Char) : String :=
  (s.data.takeWhile (fun d => d ≠ c)).asString

/-- Python `s.rindex(c)`: index of the last occurrence, `none` when absent
(where Python raises `ValueError`). -/
def pyRindex (s : String) (c : Char) : Option Nat :=
  ((List.range (strLen s)).filter (fun i => s.data.get? i = some c)).getLast?

/-- First whitespace-separated token of `s` (`s.split()[0]`), if any. -/
def firstTok (s : String) : Option String :=
  let l := dropWs s.data
  if l.isEmpty then none else some (takeTok l).1.asString

/-- Python `s.startswith(p)` (list-based so it reduces in the kernel). -/
def strStarts (s p : String) : Bool := p.data.isPrefixOf s.data

/-- Python `s.endswith(p)` (list-based so it reduces in the kernel). -/
def strEnds (s p : String) : Bool := p.data.isSuffixOf s.data

/-- `s.replace(";", "z")`: single-character replacement is a map. -/
def replaceSemis (s : String) : String :=
  (s.data.map (fun c => if c = ';' then 'z' else c)).asString

/-- Join strings with a separator (Python `", ".join(...)`). -/
def joinWith (sep : String) : List String → String
  | [] => ""
  | [x] => x
  | x :: xs => x ++ sep ++ joinWith sep xs

/-- A Python return code: an `int` when `int(token)` succeeds, else the
literal token string. -/
inductive Ret where
  | int (n : Int)
  | str (s : String)
deriving DecidableEq, Repr

/-- The `Call` namedtuple.  `ts` and `elapsed` are microseconds;
`args`, `status` and `elapsed` are `none` where Python stores `None`
(synthetic `atexit`/`interrupt` events carry no args and no duration). -/
structure Call where
  pid : Int
  ts : Int
  func : String
  args : Option String
  retcode : Ret
  status : Option String
  elapsed : Option Int
deriving DecidableEq, Repr

/-- The 5-tuple returned by `StraceParser.parse_call`. -/
structure CallBody where
  func : String
  args : Option String
  retcode : Ret
  status : Option String
  elapsed : Option Int
deriving DecidableEq, Repr

/-- `func` and `args` extraction of `parse_call`'s final branch:
`func = call.split("(")[0]`, `args = call[len(func)+1:].rsplit(")", 1)[0]`. -/
def splitFuncArgs (call : String) : String × String :=
  let func := strUpToChar call '('
  let tail := strDrop call (strLen func + 1)
  let args :=
    match pyRsplitOnce ")" tail with
    | some (a, _) => a
    | none => tail
  (func, args)

/-- `StraceParser.parse_call`.  Errors are the Python exceptions the code
raises: failed `assert` statements, `int`/`float` conversion errors, and
unpacking errors from one-element `split` results. -/
def parseCall (call : String) : Except String CallBody :=
  if strStarts call "+++ exited with " then
    match firstTok (strDrop call 16) with
    | none => .error "IndexError"
    | some tok =>
      match pyInt tok with
      | none => .error "ValueError"
      | some n => .ok ⟨"atexit", none, Ret.int n, none, none⟩
  else if strStarts call "--- " then
    match pySplitOnce " " (strDrop call 4) with
    | none => .error "ValueError"
    | some (signal, rest) =>
      if strEnds rest " ---" then
        .ok ⟨"interrupt", some signal, Ret.str (strTake rest (strLen rest - 4)), none, none⟩
      else .error "AssertionError"
  else
    match pyRsplitOnce " = " call with
    | none => .error "ValueError"
    | some (callL, rest) =>
      let (fn, args) := splitFuncArgs callL
      match pySplitOnce " " rest with
      | none =>
        let retcode := match pyInt rest with | some n => Ret.int n | none => Ret.str rest
        .ok ⟨fn, some args, retcode, none, some 0⟩
      | some (rv, after) =>
        let retcode := match pyInt rv with | some n => Ret.int n | none => Ret.str rv
        let (status, elapsedTok) :=
          match pyRsplitOnce " " after with
          | some (st, el) => (some st, el)
          | none => ((none : Option String), after)
        if strStarts elapsedTok "<" then
          if strEnds elapsedTok ">" then
            match pyFloatUs (pySlice elapsedTok 1 (strLen elapsedTok - 1)) with
            | none => .error "ValueError"
            | some q => .ok ⟨fn, some args, retcode, status, some q⟩
          else .error "AssertionError"
        else .error "AssertionError"

instance {ε α : Type _} [DecidableEq ε] [DecidableEq α] : DecidableEq (Except ε α) :=
  fun x y =>
    match x, y with
    | .ok a, .ok b =>
      if h : a = b then isTrue (by rw [h]) else isFalse (by intro hx; cases hx; exact h rfl)
    | .ok _, .error _ => isFalse (by intro hx; cases hx)
    | .error _, .ok _ => isFalse (by intro hx; cases hx)
    | .error e, .error f =>
      if h : e = f then isTrue (by rw [h]) else isFalse (by intro hx; cases hx; exact h rfl)

/-- The parser's pending map (pid → stored prefix), a Python dict. -/
abbrev Pending := List (Int × String)

/-- Dict lookup. -/
def pendingLookup (p : Pending) (k : Int) : Option String :=
  (p.find? (fun kv => kv.1 = k)).map (fun kv => kv.2)

/-- Dict insert (replace an existing key, else append). -/
def pendingInsert (p : Pending) (k : Int) (v : String) : Pending :=
  if (p.find? (fun kv => kv.1 = k)).isSome then
    p.map (fun kv => if kv.1 = k then (k, v) else kv)
  else p ++ [(k, v)]

/-- Dict key removal (`pop`'s mutation part). -/
def pendingErase (p : Pending) (k : Int) : Pending :=
  p.filter (fun kv => kv.1 ≠ k)

/-- `StraceParser.parse_line`.  Returns the pending map as mutated up to
the point of return or exception, and either the emitted `Call`
(`none` for a stored unfinished half) or the escaping exception. -/
def parseLine (pending : Pending) (line : String) : Pending × Except String (Option Call) :=
  let s := pySplitNone2 line
  match s.get? 0 with
  | none => (pending, .error "IndexError")
  | some s0 =>
    match pyInt s0 with
    | none => (pending, .error "ValueError")
    | some pid =>
      match s.get? 1 with
      | none => (pending, .error "IndexError")
      | some s1 =>
        match pyFloatUs s1 with
        | none => (pending, .error "ValueError")
        | some ts =>
          match s.get? 2 with
          | none => (pending, .error "IndexError")
          | some s2 =>
            if strEnds s2 " <unfinished ...>" then
              if (pendingLookup pending pid).isSome then (pending, .error "AssertionError")
              else (pendingInsert pending pid (strTake s2 (strLen s2 - 17)), .ok none)
            else if strStarts s2 "<... " then
              match pendingLookup pending pid with
              | none => (pending, .error "KeyError")
              | some stored =>
                let pending' := pendingErase pending pid
                match pySplitOnce " " (strDrop s2 5) with
                | none => (pending', .error "ValueError")
                | some (expectFn, rest) =>
                  if strStarts rest "resumed>" then
                    let toParse := stored ++ lstripStr (strDrop rest 8)
                    match parseCall toParse with
                    | .error e => (pending', .error e)
                    | .ok body =>
                      if body.func = expectFn then
                        (pending', .ok (some ⟨pid, ts, body.func, body.args,
                          body.retcode, body.status, body.elapsed⟩))
                      else (pending', .error "AssertionError")
                  else (pending', .error "AssertionError")
            else
              match parseCall s2 with
              | .error e => (pending, .error e)
              | .ok body =>
                (pending, .ok (some ⟨pid, ts, body.func, body.args,
                  body.retcode, body.status, body.elapsed⟩))

/-! ## The collapser

`Process` objects and the `defaultdict` syscall maps are mutable Python
objects; here they live in the append-only stores `Collapser.procs` and
`Collapser.maps` and are addressed by index, so aliasing (`self.syscalls
= parent.syscalls`) is the literal sharing of a `syscallsRef` index.
`copy.copy` in `Process.execve` becomes allocating a new store entry
with the same field values.  Parent references always point to
earlier-allocated entries, which justifies the `j < i` guards on the
parent-chain walks below (they never fire in reachable states). -/

/-- `SyscallCounter`: a call count and a total elapsed duration. -/
structure SyscallCounter where
  calls : Nat
  elapsed : Int
deriving DecidableEq, Repr

/-- One `defaultdict(SyscallCounter)` in insertion order. -/
abbrev SyscallMap := List (String × SyscallCounter)

/-- A `Process` node.  `tBegin`/`tEnd` are the Python `begin`/`end`
timestamps; `syscallsRef` indexes `Collapser.maps`; `parentRef` indexes
`Collapser.procs`; `retcode` is the attribute assigned at `atexit`. -/
structure Process where
  args : Option String
  pid : Ret
  parentRef : Option Nat
  tBegin : Int
  tEnd : Option Int
  child_samples : Int
  syscallsRef : Nat
  retcode : Option Ret
deriving DecidableEq, Repr

instance : Inhabited Process :=
  ⟨⟨none, Ret.int 0, none, 0, none, 0, 0, none⟩⟩

/-- The collapser state: the two object stores, the live-pid dict
`pmap` (keys are dict keys, so `Ret` values), and the `finished` list
of retired node references. -/
structure Collapser where
  procs : List Process
  maps : List SyscallMap
  pmap : List (Ret × Nat)
  finished : List Nat
deriving DecidableEq, Repr

/-- `Collapser()` -/
def collapserInit : Collapser := ⟨[], [], [], []⟩

/-- Dict lookup in `pmap`. -/
def pmapLookup (p : List (Ret × Nat)) (k : Ret) : Option Nat :=
  (p.find? (fun kv => decide (kv.1 = k))).map (fun kv => kv.2)

/-- Dict insert in `pmap` (replace an existing key, else append). -/
def pmapInsert (p : List (Ret × Nat)) (k : Ret) (v : Nat) : List (Ret × Nat) :=
  if (p.find? (fun kv => decide (kv.1 = k))).isSome then
    p.map (fun kv => if kv.1 = k then (k, v) else kv)
  else p ++ [(k, v)]

/-- Dict key removal in `pmap`. -/
def pmapErase (p : List (Ret × Nat)) (k : Ret) : List (Ret × Nat) :=
  p.filter (fun kv => decide (kv.1 ≠ k))

/-- `Collapser.process(pid)`: `pmap.get(pid)` (pids look up as `int` keys). -/
def procOf (st : Collapser) (pid : Int) : Option Nat :=
  pmapLookup st.pmap (Ret.int pid)

/-- Total elapsed over a syscall map (`sum(counter.elapsed ...)`). -/
def counterTotal (m : SyscallMap) : Int :=
  (m.map (fun kv => kv.2.elapsed)).sum

/-- `Process.elapsed`: wall time minus retired-descendant samples minus
tracked-syscall time.  `now` stands for `datetime.now()`, used only when
`end` is unset. -/
def selfTime (maps : List SyscallMap) (p : Process) (now : Int) : Int :=
  (p.tEnd.getD now - p.tBegin) - p.child_samples - counterTotal (maps.getD p.syscallsRef [])

/-- The ancestor walk of `record_finished` starting at node `i`:
add `t` to `child_samples` of `i` and then of its parent chain.
Parent references of reachable states strictly decrease, hence the
`j < i` guard; the structural fuel (always at least `i + 1` at the top
call, which the guard keeps sufficient) makes the definition reduce in
the kernel. -/
def bumpFromAux : Nat → List Process → Int → Nat → List Process
  | 0, procs, _, _ => procs
  | fuel + 1, procs, t, i =>
    match procs.get? i with
    | none => procs
    | some p =>
      let procs' := procs.set i { p with child_samples := p.child_samples + t }
      match p.parentRef with
      | none => procs'
      | some j => if j < i then bumpFromAux fuel procs' t j else procs'

/-- `bumpFromAux` with enough fuel for its strictly decreasing walk. -/
def bumpFrom (procs : List Process) (t : Int) (i : Nat) : List Process :=
  bumpFromAux (i + 1) procs t i

/-- `record_finished`'s `while current is not None` loop, from an
optional starting reference. -/
def bumpAncestors (procs : List Process) (t : Int) : Option Nat → List Process
  | none => procs
  | some i => bumpFrom procs t i

/-- `Collapser.record_finished(proc)` for the node at reference `r`. -/
def recordFinished (st : Collapser) (r : Nat) (now : Int) : Collapser :=
  let p := st.procs.getD r default
  match p.args with
  | none => st
  | some _ =>
    let selftime := selfTime st.maps p now
    { st with
      procs := bumpAncestors st.procs selftime p.parentRef,
      finished := st.finished ++ [r] }

/-- `Collapser.SYSCALLS`. -/
def SYSCALLS : List String :=
  ["open", "openat", "link", "unlink", "unlinkat", "getcwd", "chdir", "mkdir",
   "access", "faccessat", "lstat", "stat", "newfstatat", "statfs", "readlink",
   "mount", "read", "write", "connect", "socket", "bind", "setsockopt",
   "getsockopt", "getsockname", "getpeername", "sendmmsg", "recvmsg",
   "recvfrom", "sendto"]

/-- `Collapser.handle_call(call)`.  Returns the state as mutated up to
the point of return or exception, plus the escaping exception if any
(`KeyError` from `pmap.pop`, `TypeError` from slicing or adding
`None`). -/
def handleCall (st : Collapser) (c : Call) (now : Int) : Collapser × Option String :=
  if c.func = "clone" then
    let parentRef := procOf st c.pid
    let child : Process :=
      { args := none, pid := c.retcode, parentRef := parentRef, tBegin := c.ts,
        tEnd := none, child_samples := 0,
        syscallsRef :=
          match parentRef with
          | some pr => (st.procs.getD pr default).syscallsRef
          | none => st.maps.length,
        retcode := none }
    match parentRef with
    | some _ =>
      ({ st with procs := st.procs ++ [child],
                 pmap := pmapInsert st.pmap c.retcode st.procs.length }, none)
    | none =>
      ({ st with procs := st.procs ++ [child], maps := st.maps ++ [[]],
                 pmap := pmapInsert st.pmap c.retcode st.procs.length }, none)
  else if c.func = "execve" then
    if c.retcode ≠ Ret.int 0 then (st, none)
    else
      match procOf st c.pid with
      | none =>
        let root : Process :=
          { args := c.args, pid := Ret.int c.pid, parentRef := none, tBegin := c.ts,
            tEnd := none, child_samples := 0, syscallsRef := st.maps.length,
            retcode := none }
        ({ st with procs := st.procs ++ [root], maps := st.maps ++ [[]],
                   pmap := pmapInsert st.pmap (Ret.int c.pid) st.procs.length }, none)
      | some r =>
        let p := st.procs.getD r default
        let snapshot := { p with tEnd := some c.ts }
        let live := { p with tBegin := c.ts, tEnd := none, args := c.args,
                             child_samples := 0, syscallsRef := st.maps.length }
        let st1 := { st with procs := (st.procs.set r live) ++ [snapshot],
                             maps := st.maps ++ [[]] }
        (recordFinished st1 st.procs.length now, none)
  else if c.func = "atexit" then
    match procOf st c.pid with
    | none => (st, some "KeyError")
    | some r =>
      let p := st.procs.getD r default
      let p' := { p with retcode := some c.retcode, tEnd := some c.ts }
      let st1 := { st with pmap := pmapErase st.pmap (Ret.int c.pid),
                           procs := st.procs.set r p' }
      (recordFinished st1 r now, none)
  else if SYSCALLS.contains c.func then
    let pipeElide : Except String Bool :=
      if c.func = "read" then
        match c.args with
        | none => .error "TypeError"
        | some a => .ok (pySlice a 1 7 == "<pipe:")
      else .ok false
    match pipeElide with
    | .error e => (st, some e)
    | .ok true => (st, none)
    | .ok false =>
      match procOf st c.pid with
      | none => (st, none)
      | some r =>
        let p := st.procs.getD r default
        let m := st.maps.getD p.syscallsRef []
        let m1 :=
          if (m.find? (fun kv => decide (kv.1 = c.func))).isSome then m
          else m ++ [(c.func, ⟨0, 0⟩)]
        match c.elapsed with
        | none => ({ st with maps := st.maps.set p.syscallsRef m1 }, some "TypeError")
        | some e =>
          let m2 := m1.map (fun kv =>
            if kv.1 = c.func then (kv.1, ⟨kv.2.calls + 1, kv.2.elapsed + e⟩) else kv)
          ({ st with maps := st.maps.set p.syscallsRef m2 }, none)
  else (st, none)

/-- Feed a list of calls to the collapser, stopping at the first
escaping exception (as the driver loop in `main._collapse_stacks`
would). -/
def runCalls (st : Collapser) (cs : List Call) (now : Int) : Collapser × Option String :=
  match cs with
  | [] => (st, none)
  | c :: rest =>
    match handleCall st c now with
    | (st', some e) => (st', some e)
    | (st', none) => runCalls st' rest now

/-! ## Rendering (`Process.__str__` and `Collapser.render`)

`Process.__str__` decodes the first `execve` argument and the argv list
with the host-language literal evaluator (`eval`).  Here that is a small
string-literal parser: double- or single-quoted strings with the common
backslash escapes (unknown escapes keep the backslash, as Python string
literals do). -/

/-- The apostrophe character. -/
def sqc : Char := Char.ofNat 39

/-- Decoding of one escape character after a backslash; `none` means the
escape is left intact. -/
def escMap (c : Char) : Option Char :=
  if c = 'n' then some '\n'
  else if c = 't' then some '\t'
  else if c = 'r' then some '\r'
  else if c = '0' then some (Char.ofNat 0)
  else if c = 'a' then some (Char.ofNat 7)
  else if c = 'b' then some (Char.ofNat 8)
  else if c = 'f' then some (Char.ofNat 12)
  else if c = 'v' then some (Char.ofNat 11)
  else if c = '\\' then some '\\'
  else if c = '"' then some '"'
  else if c = sqc then some sqc
  else none

/-- Scan a quoted-string body up to the closing quote `q`; returns the
decoded content and the remainder after the quote. -/
def evalStrAux (q : Char) : List Char → Option (List Char × List Char)
  | [] => none
  | c :: rest =>
    if c = q then some ([], rest)
    else if c = '\\' then
      match rest with
      | [] => none
      | e :: rest2 =>
        match escMap e with
        | some ch => (evalStrAux q rest2).map (fun pr => (ch :: pr.1, pr.2))
        | none => (evalStrAux q rest2).map (fun pr => ('\\' :: e :: pr.1, pr.2))
    else (evalStrAux q rest).map (fun pr => (c :: pr.1, pr.2))

/-- `eval` of a single string literal. -/
def pyEvalStr (s : String) : Option String :=
  match dropWs s.data with
  | [] => none
  | q :: rest =>
    if q = '"' || q = sqc then
      match evalStrAux q rest with
      | some (content, rest2) =>
        if (dropWs rest2).isEmpty then some content.asString else none
      | none => none
    else none

/-- Items of a `[...]` literal of string literals, after the opening
bracket; fuel bounds the recursion by the input length. -/
def parseListItems : Nat → List Char → Option (List String)
  | 0, _ => none
  | fuel + 1, l =>
    match dropWs l with
    | [] => none
    | ']' :: rest => if (dropWs rest).isEmpty then some [] else none
    | q :: rest =>
      if q = '"' || q = sqc then
        match evalStrAux q rest with
        | none => none
        | some (content, rest2) =>
          match dropWs rest2 with
          | ',' :: rest3 =>
            (parseListItems fuel rest3).map (fun items => content.asString :: items)
          | ']' :: rest3 =>
            if (dropWs rest3).isEmpty then some [content.asString] else none
          | _ => none
      else none

/-- `eval` of a list literal of string literals. -/
def pyEvalStrList (s : String) : Option (List String) :=
  match dropWs s.data with
  | '[' :: rest => parseListItems (rest.length + 1) rest
  | _ => none

/-- Escaping inside Python `repr` of a string, for quote character `qc`. -/
def reprEscape (qc : Char) (s : String) : String :=
  (s.data.flatMap (fun c =>
    if c = '\\' then ['\\', '\\']
    else if c = qc then ['\\', qc]
    else if c = '\n' then ['\\', 'n']
    else if c = '\r' then ['\\', 'r']
    else if c = '\t' then ['\\', 't']
    else [c])).asString

/-- Python `repr` of a string: single quotes, or double quotes when the
text has an apostrophe but no double quote. -/
def reprStr (s : String) : String :=
  let qc := if s.data.contains sqc && !s.data.contains '"' then '"' else sqc
  qc.toString ++ reprEscape qc s ++ qc.toString

/-- Python `str` of a list of strings (`repr` of each element). -/
def reprList (l : List String) : String :=
  "[" ++ joinWith ", " (l.map reprStr) ++ "]"

/-- A `pid` in an f-string. -/
def retStr : Ret → String
  | Ret.int n => toString n
  | Ret.str s => s

/-- The frame `Process.__str__` builds from one node's `args`: decode
`arg0`, cut the argv list at its last `]`, repair a truncated
`...]` tail, decode it (falling back to the first 32 characters), and
replace `;` by `z`.  `none` is a raised exception (no comma to split
at, an `arg0` that `eval` rejects, or `rindex` failing). -/
def frameOf (pid : Ret) (args : String) : Option String :=
  match pySplitOnce "," args with
  | none => none
  | some (arg0raw, rest) =>
    match pyEvalStr arg0raw with
    | none => none
    | some arg0 =>
      let argv := lstripStr rest
      let argvStr? : Option String :=
        if strStarts argv "[" then
          match pyRindex argv ']' with
          | none => none
          | some k =>
            let a := strTake argv (k + 1)
            let a := if strEnds a "...]" then strTake a (strLen a - 4) ++ ", \"...\"]" else a
            match pyEvalStrList a with
            | some items => some (reprList items)
            | none => some (strTake a 32)
        else some argv
      match argvStr? with
      | none => none
      | some argvStr =>
        some (replaceSemis (arg0 ++ "(" ++ retStr pid ++ ") " ++ argvStr))

/-- `str(Process)` for the node at index `i`: the parent's stack
followed by this node's frame when it has `args`.  The `j < i` guard
mirrors the strictly decreasing parent chain of reachable states; the
structural fuel keeps the definition kernel-reducible. -/
def strFromAux : Nat → List Process → Nat → Option String
  | 0, _, _ => some ""
  | fuel + 1, procs, i =>
    match procs.get? i with
    | none => some ""
    | some p =>
      let s? : Option String :=
        match p.parentRef with
        | none => some ""
        | some j => if j < i then strFromAux fuel procs j else some ""
      match s? with
      | none => none
      | some s =>
        match p.args with
        | none => some s
        | some args =>
          match frameOf p.pid args with
          | none => none
          | some me => some (if s = "" then me else s ++ ";" ++ me)

/-- `strFromAux` with enough fuel for its strictly decreasing walk. -/
def strFrom (procs : List Process) (i : Nat) : Option String :=
  strFromAux (i + 1) procs i

/-- `Collapser.render`: one row per finished node
(`max(1, int(selftime.total_seconds() * 10^6))`, the microsecond count),
then one row per entry of its syscall map.  `none` is an exception
escaping from `__str__`. -/
def renderRows (st : Collapser) (now : Int) : Option (List String) :=
  st.finished.foldl
    (fun acc r =>
      match acc with
      | none => none
      | some rows =>
        let p := st.procs.getD r default
        match strFrom st.procs r with
        | none => none
        | some stack =>
          let us := max 1 (selfTime st.maps p now)
          let row1 := stack ++ " " ++ toString us
          let srows := (st.maps.getD p.syscallsRef []).map (fun kv =>
            stack ++ ";" ++ kv.1 ++ "(" ++ toString kv.2.calls ++ " calls) " ++
              toString kv.2.elapsed)
          some (rows ++ [row1] ++ srows))
    (some [])

/-! ## Auxiliary observers and spec-side definitions -/

/-- `StraceParser.parse` over a list of lines feeding nothing downstream:
collect the emitted calls, stopping at an escaping exception. -/
def parseLines (pending : Pending) : List String → Pending × Except String (List Call)
  | [] => (pending, .ok [])
  | l :: ls =>
    match parseLine pending l with
    | (p', .error e) => (p', .error e)
    | (p', .ok none) => parseLines p' ls
    | (p', .ok (some c)) =>
      match parseLines p' ls with
      | (p'', .error e) => (p'', .error e)
      | (p'', .ok cs) => (p'', .ok (c :: cs))

/-- The keys of the `pmap` dict. -/
def pmapKeys (p : List (Ret × Nat)) : List Ret := p.map (fun kv => kv.1)

/-- Add a key to a set-as-list when absent. -/
def insertIfAbsent (l : List Ret) (k : Ret) : List Ret :=
  if k ∈ l then l else l ++ [k]

/-- Modelled from the spec, for claim C5: one event's effect on "the set
of pids that have appeared as the retcode of a clone or as the pid of an
initial successful execve and have not yet appeared in an atexit event".
A clone adds its retcode; a successful execve adds its pid when absent
(so exactly the initial one extends the set); an atexit removes its pid. -/
def liveSpecStep (acc : List Ret) (c : Call) : List Ret :=
  if c.func = "clone" then insertIfAbsent acc c.retcode
  else if c.func = "execve" then
    if c.retcode = Ret.int 0 then insertIfAbsent acc (Ret.int c.pid) else acc
  else if c.func = "atexit" then acc.filter (fun k => decide (k ≠ Ret.int c.pid))
  else acc

/-- Modelled from the spec, for claim C5: the pids the spec calls live
after a prefix of the stream. -/
def liveSpec (cs : List Call) : List Ret := cs.foldl liveSpecStep []

/-- The parent chain from node `i` strictly decreases (true of every
reachable state, since parents are allocated before children). -/
def chainOkFromAux : Nat → List Process → Nat → Bool
  | 0, _, _ => true
  | fuel + 1, procs, i =>
    match procs.get? i with
    | none => true
    | some p =>
      match p.parentRef with
      | none => true
      | some j => if j < i then chainOkFromAux fuel procs j else false

/-- `chainOkFromAux` with enough fuel for its strictly decreasing walk. -/
def chainOkFrom (procs : List Process) (i : Nat) : Bool :=
  chainOkFromAux (i + 1) procs i

/-- `chainOkFrom` lifted to an optional starting reference. -/
def chainOk (procs : List Process) : Option Nat → Bool
  | none => true
  | some i => chainOkFrom procs i

/-- The references visited by the ancestor walk starting at node `i`. -/
def ancRefsFromAux : Nat → List Process → Nat → List Nat
  | 0, _, _ => []
  | fuel + 1, procs, i =>
    match procs.get? i with
    | none => []
    | some p =>
      i :: (match p.parentRef with
            | none => []
            | some j => if j < i then ancRefsFromAux fuel procs j else [])

/-- `ancRefsFromAux` with enough fuel for its strictly decreasing walk. -/
def ancRefsFrom (procs : List Process) (i : Nat) : List Nat :=
  ancRefsFromAux (i + 1) procs i

/-- `ancRefsFrom` lifted to an optional starting reference. -/
def ancRefs (procs : List Process) : Option Nat → List Nat
  | none => []
  | some i => ancRefsFrom procs i

/-- Total `child_samples` along the ancestor walk from node `i`. -/
def ancSumFromAux : Nat → List Process → Nat → Int
  | 0, _, _ => 0
  | fuel + 1, procs, i =>
    match procs.get? i with
    | none => 0
    | some p =>
      p.child_samples +
        (match p.parentRef with
         | none => 0
         | some j => if j < i then ancSumFromAux fuel procs j else 0)

/-- `ancSumFromAux` with enough fuel for its strictly decreasing walk. -/
def ancSumFrom (procs : List Process) (i : Nat) : Int :=
  ancSumFromAux (i + 1) procs i

/-- `ancSumFrom` lifted to an optional starting reference. -/
def ancSum (procs : List Process) : Option Nat → Int
  | none => 0
  | some i => ancSumFrom procs i

/-- Every node's parent reference points strictly below it. -/
def parentsBelow (procs : List Process) : Bool :=
  (List.range procs.length).all (fun k =>
    match procs.get? k with
    | some p => match p.parentRef with | some j => decide (j < k) | none => true
    | none => true)

/-- The claim C3 sharing invariant: every node without `args` has the
same syscall map reference as its parent. -/
def sharedMaps (procs : List Process) : Bool :=
  (List.range procs.length).all (fun k =>
    match procs.get? k with
    | some pc =>
      match pc.args, pc.parentRef with
      | none, some j =>
        match procs.get? j with
        | some pp => decide (pc.syscallsRef = pp.syscallsRef)
        | none => true
      | _, _ => true
    | none => true)

/-- Whether node `r` currently has a child node without `args`
(a live thread-like child aliasing `r`'s syscall map). -/
def hasThreadChild (procs : List Process) (r : Nat) : Bool :=
  (List.range procs.length).any (fun k =>
    match procs.get? k with
    | some pc => pc.args.isNone && decide (pc.parentRef = some r)
    | none => false)

/-- An apostrophe, for folded rows quoting argv elements. -/
def apos : String := sqc.toString

/-! ### Concrete traces used by the scenarios -/

/-- Scenario A1, first line. -/
def a1line1 : String := "100 1000.0 execve(\"/bin/ls\", [\"ls\"], 0x0) = 0 <0.001>"

/-- Scenario A1, second line. -/
def a1line2 : String := "100 1000.5 +++ exited with 0 +++"

/-- The calls scenario A1's two lines parse to. -/
def a1calls : List Call :=
  [⟨100, 1000000000, "execve", some "\"/bin/ls\", [\"ls\"], 0x0", Ret.int 0, none, some 1000⟩,
   ⟨100, 1000500000, "atexit", none, Ret.int 0, none, none⟩]

/-- Scenario A2, first line. -/
def a2line1 : String := "100 1.0 read(3, <unfinished ...>"

/-- Scenario A2, second line. -/
def a2line2 : String := "100 1.2 <... read resumed> \"x\", 1) = 1 <0.2>"

/-- A successful root execve of pid 100 at t = 0. -/
def cExec100 : Call := ⟨100, 0, "execve", some "\"/bin/a\", [\"a\"], 0x0", Ret.int 0, none, some 0⟩

/-- A clone by pid 100 returning pid 200 at t = 1. -/
def cClone200 : Call := ⟨100, 1000000, "clone", none, Ret.int 200, none, some 0⟩

/-- A successful execve of the cloned pid 200 at t = 1. -/
def cExec200 : Call := ⟨200, 1000000, "execve", some "\"/bin/b\", [\"b\"], 0x0", Ret.int 0, none, some 0⟩

/-- Exit of pid 200 at t = 3. -/
def cExit200 : Call := ⟨200, 3000000, "atexit", none, Ret.int 0, none, none⟩

/-- A second successful execve of pid 100 at t = 4. -/
def cExec100b : Call := ⟨100, 4000000, "execve", some "\"/bin/c\", [\"c\"], 0x0", Ret.int 0, none, some 0⟩

/-- A read by pid 200 of 0.1 s at t = 5. -/
def cRead200 : Call := ⟨200, 5000000, "read", some "3, \"x\", 1", Ret.int 1, none, some 100000⟩

/-- A read by pid 100 whose argument text starts with `<pipe:` at its
very first character. -/
def cReadPipeAt0 : Call :=
  ⟨100, 1000000, "read", some "<pipe:[42]>, \"x\", 10", Ret.int 5, none, some 100000⟩

/-- Scenario A6 trace: pid 200 execs, clones 201, which does two opens
and exits; then 200 exits. -/
def a6calls : List Call :=
  [⟨200, 0, "execve", some "\"/bin/a\", [\"a\"], 0x0", Ret.int 0, none, some 0⟩,
   ⟨200, 1000000, "clone", none, Ret.int 201, none, some 0⟩,
   ⟨201, 1500000, "open", some "\"f\"", Ret.int 3, none, some 100000⟩,
   ⟨201, 1600000, "open", some "\"g\"", Ret.int 4, none, some 100000⟩,
   ⟨201, 2000000, "atexit", none, Ret.int 0, none, none⟩,
   ⟨200, 3000000, "atexit", none, Ret.int 0, none, none⟩]

/-- Trace for claim C3's counterexample: root execs, clones a child that
never execs, then the root execs again. -/
def c3trace : List Call := [cExec100, cClone200, cExec100b]

/-- Trace for claim C4's counterexample: root execs, clones 200 which
execs and exits (so its self-time lands in the root's `child_samples`),
then the root execs again (resetting `child_samples`). -/
def c4trace : List Call := [cExec100, cClone200, cExec200, cExit200, cExec100b]

/-! ## Helper lemmas -/

lemma mem_pmapKeys {p : List (Ret × Nat)} {k : Ret} :
    k ∈ pmapKeys p ↔ ∃ v, (k, v) ∈ p := by
  simp only [pmapKeys, List.mem_map]
  constructor
  · rintro ⟨⟨a, b⟩, hm, rfl⟩; exact ⟨b, hm⟩
  · rintro ⟨v, hv⟩; exact ⟨(k, v), hv, rfl⟩

lemma mem_keys_pmapInsert {p : List (Ret × Nat)} {k k0 : Ret} {v : Nat} :
    k ∈ pmapKeys (pmapInsert p k0 v) ↔ (k ∈ pmapKeys p ∨ k = k0) := by
  unfold pmapInsert
  split
  · next hf =>
    have hk0 : k0 ∈ pmapKeys p := by
      rcases List.find?_isSome.mp hf with ⟨kv, hm, hkv⟩
      simp only [decide_eq_true_eq] at hkv
      exact mem_pmapKeys.mpr ⟨kv.2, by rw [← hkv]; exact hm⟩
    simp only [pmapKeys, List.map_map]
    rw [show ((fun kv : Ret × Nat => kv.1) ∘ fun kv => if kv.1 = k0 then (k0, v) else kv)
          = (fun kv : Ret × Nat => kv.1) from by funext kv; simp only [Function.comp]; split
                                                <;> simp_all]
    constructor
    · intro h; exact Or.inl h
    · rintro (h | rfl)
      · exact h
      · exact hk0
  · simp [pmapKeys]

lemma mem_keys_pmapErase {p : List (Ret × Nat)} {k k0 : Ret} :
    k ∈ pmapKeys (pmapErase p k0) ↔ (k ∈ pmapKeys p ∧ k ≠ k0) := by
  simp only [pmapErase, pmapKeys, List.mem_map, List.mem_filter, decide_eq_true_eq]
  constructor
  · rintro ⟨kv, ⟨hm, hne⟩, rfl⟩; exact ⟨⟨kv, hm, rfl⟩, hne⟩
  · rintro ⟨⟨kv, hm, rfl⟩, hne⟩; exact ⟨kv, ⟨hm, hne⟩, rfl⟩

lemma mem_insertIfAbsent {l : List Ret} {k k0 : Ret} :
    k ∈ insertIfAbsent l k0 ↔ (k ∈ l ∨ k = k0) := by
  unfold insertIfAbsent
  split
  · next h =>
    constructor
    · exact Or.inl
    · rintro (hk | rfl)
      · exact hk
      · exact h
  · simp

lemma procOf_none_iff {st : Collapser} {pid : Int} :
    procOf st pid = none ↔ Ret.int pid ∉ pmapKeys st.pmap := by
  simp only [procOf, pmapLookup, Option.map_eq_none', List.find?_eq_none,
    decide_eq_true_eq, mem_pmapKeys]
  constructor
  · rintro h ⟨v, hv⟩; exact h _ hv rfl
  · intro h kv hm hk; exact h ⟨kv.2, by rw [← hk]; exact hm⟩

lemma procOf_some_mem {st : Collapser} {pid : Int} {r : Nat}
    (h : procOf st pid = some r) : Ret.int pid ∈ pmapKeys st.pmap := by
  by_contra hk
  rw [← procOf_none_iff] at hk
  rw [h] at hk
  cases hk

lemma recordFinished_pmap (st : Collapser) (r : Nat) (now : Int) :
    (recordFinished st r now).pmap = st.pmap := by
  unfold recordFinished
  cases h : (st.procs[r]?.getD default).args <;> simp [h]

lemma handleCall_clone (st : Collapser) (c : Call) (now : Int) (hc : c.func = "clone") :
    (handleCall st c now).1.pmap = pmapInsert st.pmap c.retcode st.procs.length ∧
    (handleCall st c now).2 = none := by
  unfold handleCall
  cases h : procOf st c.pid <;> simp [hc, h]

lemma handleCall_execve_fail (st : Collapser) (c : Call) (now : Int)
    (hc : c.func = "execve") (hr : c.retcode ≠ Ret.int 0) :
    handleCall st c now = (st, none) := by
  unfold handleCall
  simp [hc, hr]

lemma handleCall_execve_new (st : Collapser) (c : Call) (now : Int)
    (hc : c.func = "execve") (hr : c.retcode = Ret.int 0) (hp : procOf st c.pid = none) :
    (handleCall st c now).1.pmap = pmapInsert st.pmap (Ret.int c.pid) st.procs.length ∧
    (handleCall st c now).2 = none := by
  unfold handleCall
  simp [hc, hr, hp]

lemma handleCall_execve_known (st : Collapser) (c : Call) (now : Int) (r : Nat)
    (hc : c.func = "execve") (hr : c.retcode = Ret.int 0) (hp : procOf st c.pid = some r) :
    (handleCall st c now).1.pmap = st.pmap ∧ (handleCall st c now).2 = none := by
  unfold handleCall
  simp [hc, hr, hp, recordFinished_pmap]

lemma handleCall_atexit_known (st : Collapser) (c : Call) (now : Int) (r : Nat)
    (hc : c.func = "atexit") (hp : procOf st c.pid = some r) :
    (handleCall st c now).1.pmap = pmapErase st.pmap (Ret.int c.pid) ∧
    (handleCall st c now).2 = none := by
  unfold handleCall
  simp [hc, hp, recordFinished_pmap]

lemma handleCall_other_pmap (st : Collapser) (c : Call) (now : Int)
    (h1 : c.func ≠ "clone") (h2 : c.func ≠ "execve") (h3 : c.func ≠ "atexit") :
    (handleCall st c now).1.pmap = st.pmap := by
  unfold handleCall
  simp only [h1, h2, h3, if_false]
  repeat' split
  all_goals rfl

lemma mem_liveSpecStep {acc : List Ret} {c : Call} {k : Ret} :
    k ∈ liveSpecStep acc c ↔
      (if c.func = "clone" then k ∈ acc ∨ k = c.retcode
       else if c.func = "execve" then
         (if c.retcode = Ret.int 0 then k ∈ acc ∨ k = Ret.int c.pid else k ∈ acc)
       else if c.func = "atexit" then k ∈ acc ∧ k ≠ Ret.int c.pid
       else k ∈ acc) := by
  unfold liveSpecStep
  split_ifs with hc he hr ha <;>
    simp [mem_insertIfAbsent, List.mem_filter]

lemma handleCall_keys (st : Collapser) (c : Call) (now : Int)
    (h : (handleCall st c now).2 = none) (k : Ret) :
    k ∈ pmapKeys (handleCall st c now).1.pmap ↔
      k ∈ liveSpecStep (pmapKeys st.pmap) c := by
  rw [mem_liveSpecStep]
  by_cases hc : c.func = "clone"
  · rw [(handleCall_clone st c now hc).1]
    simp [hc, mem_keys_pmapInsert]
  · by_cases he : c.func = "execve"
    · by_cases hr : c.retcode = Ret.int 0
      · cases hp : procOf st c.pid with
        | none =>
          rw [(handleCall_execve_new st c now he hr hp).1]
          simp [hc, he, hr, mem_keys_pmapInsert]
        | some r =>
          rw [(handleCall_execve_known st c now r he hr hp).1]
          have hm := procOf_some_mem hp
          simp only [hc, if_false, he, if_true, hr]
          constructor
          · exact Or.inl
          · rintro (hk | rfl)
            · exact hk
            · exact hm
      · rw [handleCall_execve_fail st c now he hr]
        simp [hc, he, hr]
    · by_cases ha : c.func = "atexit"
      · cases hp : procOf st c.pid with
        | none =>
          exfalso
          unfold handleCall at h
          simp [hc, he, ha, hp] at h
        | some r =>
          rw [(handleCall_atexit_known st c now r ha hp).1]
          simp [hc, he, ha, mem_keys_pmapErase]
      · rw [handleCall_other_pmap st c now hc he ha]
        simp [hc, he, ha]

lemma runCalls_keys (cs : List Call) (st : Collapser) (now : Int) (A : List Ret)
    (hA : ∀ k, k ∈ pmapKeys st.pmap ↔ k ∈ A)
    (hok : (runCalls st cs now).2 = none) :
    ∀ k, k ∈ pmapKeys (runCalls st cs now).1.pmap ↔ k ∈ cs.foldl liveSpecStep A := by
  induction cs generalizing st A with
  | nil => simpa [runCalls] using hA
  | cons c rest ih =>
    intro k
    rw [List.foldl_cons]
    unfold runCalls at hok ⊢
    cases hstep : handleCall st c now with
    | mk st' err =>
      cases err with
      | some e =>
        rw [hstep] at hok
        exact Option.noConfusion hok
      | none =>
        rw [hstep] at hok
        refine ih st' (liveSpecStep A c) ?_ hok k
        intro k'
        have h1 := handleCall_keys st c now (by rw [hstep]) k'
        rw [hstep] at h1
        dsimp only at h1 ⊢
        rw [h1, mem_liveSpecStep, mem_liveSpecStep]
        split_ifs <;> simp [hA k']

lemma chainOkFromAux_fuel (fuel fuel' : Nat) (procs : List Process) (i : Nat)
    (h : i < fuel) (h' : i < fuel') :
    chainOkFromAux fuel procs i = chainOkFromAux fuel' procs i := by
  induction fuel generalizing fuel' i with
  | zero => omega
  | succ f ih =>
    cases fuel' with
    | zero => omega
    | succ f' =>
      simp only [chainOkFromAux]
      split
      · rfl
      · next p heq =>
        split
        · rfl
        · next j heq2 =>
          split
          · next hj => exact ih f' j (by omega) (by omega)
          · rfl


lemma ancRefsFromAux_fuel (fuel fuel' : Nat) (procs : List Process) (i : Nat)
    (h : i < fuel) (h' : i < fuel') :
    ancRefsFromAux fuel procs i = ancRefsFromAux fuel' procs i := by
  induction fuel generalizing fuel' i with
  | zero => omega
  | succ f ih =>
    cases fuel' with
    | zero => omega
    | succ f' =>
      simp only [ancRefsFromAux]
      split
      · rfl
      · next p heq =>
        split
        · rfl
        · next j heq2 =>
          split
          · next hj => rw [ih f' j (by omega) (by omega)]
          · rfl

lemma ancRefsFromAux_le (fuel : Nat) (procs : List Process) (i k : Nat)
    (h : k ∈ ancRefsFromAux fuel procs i) : k ≤ i := by
  induction fuel generalizing i with
  | zero => simp [ancRefsFromAux] at h
  | succ f ih =>
    simp only [ancRefsFromAux] at h
    split at h
    · simp at h
    · next p heq =>
      rcases List.mem_cons.mp h with rfl | h2
      · exact le_refl k
      · split at h2
        · simp at h2
        · next j heq2 =>
          split at h2
          · next hj => exact le_trans (ih j h2) (by omega)
          · simp at h2

lemma chainOkFromAux_congr (fuel : Nat) (procs procs' : List Process) (i : Nat)
    (h : ∀ k, k ≤ i → procs'.get? k = procs.get? k) :
    chainOkFromAux fuel procs' i = chainOkFromAux fuel procs i ∧
    ancRefsFromAux fuel procs' i = ancRefsFromAux fuel procs i := by
  induction fuel generalizing i with
  | zero => exact ⟨rfl, rfl⟩
  | succ f ih =>
    simp only [chainOkFromAux, ancRefsFromAux, h i (le_refl i)]
    split
    · exact ⟨rfl, rfl⟩
    · next p heq =>
      split
      · exact ⟨rfl, rfl⟩
      · next j heq2 =>
        split
        · next hj =>
          have hrec := ih j (fun k hk => h k (by omega))
          exact ⟨hrec.1, by rw [hrec.2]⟩
        · exact ⟨rfl, rfl⟩


lemma bumpFromAux_get? (fuel : Nat) (procs : List Process) (t : Int) (i : Nat)
    (hfuel : i < fuel) (hok : chainOkFrom procs i = true) (k : Nat) :
    (bumpFromAux fuel procs t i).get? k =
      (if k ∈ ancRefsFrom procs i
       then (procs.get? k).map
         (fun p => { p with child_samples := p.child_samples + t })
       else procs.get? k) := by
  induction fuel generalizing procs i with
  | zero => omega
  | succ f ih =>
    rw [chainOkFrom] at hok
    rw [ancRefsFrom]
    cases hg : procs.get? i with
    | none =>
      simp only [bumpFromAux, chainOkFromAux, ancRefsFromAux, hg]
      simp
    | some p =>
      have hilen : i < procs.length := (List.get?_eq_some.mp hg).1
      cases hp : p.parentRef with
      | none =>
        simp only [bumpFromAux, chainOkFromAux, ancRefsFromAux, hg, hp] at hok ⊢
        by_cases hk : k = i
        · subst hk
          simp only [List.mem_cons, List.not_mem_nil, or_false, if_pos rfl, hg]
          rw [List.get?_set_eq, hg]
          simp [hp]
        · simp only [List.mem_cons, List.not_mem_nil, or_false, hk, if_false]
          exact List.get?_set_ne _ _ (fun h => hk h.symm)
      | some j =>
        simp only [bumpFromAux, chainOkFromAux, ancRefsFromAux, hg, hp] at hok ⊢
        by_cases hj : j < i
        · simp only [if_pos hj] at hok ⊢
          have hagree : ∀ m, m ≤ j →
              (procs.set i
                { p with parentRef := some j,
                         child_samples := p.child_samples + t }).get? m =
                procs.get? m := by
            intro m hm
            exact List.get?_set_ne _ _ (by omega)
          have hcongr := chainOkFromAux_congr (j + 1)
            procs
            (procs.set i
              { p with parentRef := some j, child_samples := p.child_samples + t })
            j hagree
          have hok' : chainOkFrom
              (procs.set i
                { p with parentRef := some j,
                         child_samples := p.child_samples + t }) j = true := by
            rw [chainOkFrom, hcongr.1,
              chainOkFromAux_fuel (j + 1) i procs j (by omega) hj]
            exact hok
          have hih := ih
            (procs.set i
              { p with parentRef := some j, child_samples := p.child_samples + t })
            j (by omega) hok'
          rw [hih]
          have hanc : ancRefsFrom
              (procs.set i
                { p with parentRef := some j,
                         child_samples := p.child_samples + t }) j =
              ancRefsFromAux i procs j := by
            rw [ancRefsFrom, hcongr.2,
              ancRefsFromAux_fuel (j + 1) i procs j (by omega) hj]
          rw [hanc]
          by_cases hk : k = i
          · subst hk
            have hknot : k ∉ ancRefsFromAux k procs j := by
              intro hmem
              have := ancRefsFromAux_le k procs j k hmem
              omega
            rw [if_neg hknot, if_pos (List.mem_cons.mpr (Or.inl rfl))]
            rw [List.get?_set_eq, hg]
            simp [hp]
          · have hset : (procs.set i
                { p with parentRef := some j,
                         child_samples := p.child_samples + t }).get? k =
                procs.get? k :=
              List.get?_set_ne _ _ (fun h => hk h.symm)
            rw [hset]
            by_cases hmem : k ∈ ancRefsFromAux i procs j
            · rw [if_pos hmem, if_pos (List.mem_cons.mpr (Or.inr hmem))]
            · rw [if_neg hmem, if_neg (by
                intro hc
                rcases List.mem_cons.mp hc with rfl | hc2
                · exact hk rfl
                · exact hmem hc2)]
        · simp only [if_neg hj] at hok
          simp at hok

lemma handleCall_execve_known_procs (st : Collapser) (c : Call) (now : Int) (r : Nat)
    (p : Process) (hc : c.func = "execve") (hr : c.retcode = Ret.int 0)
    (hp : procOf st c.pid = some r) (hgd : st.procs.getD r default = p) :
    (handleCall st c now).1 =
      recordFinished
        { st with
          procs := (st.procs.set r
            { p with tBegin := c.ts, tEnd := none, args := c.args,
                     child_samples := 0, syscallsRef := st.maps.length }) ++
            [{ p with tEnd := some c.ts }],
          maps := st.maps ++ [[]] }
        st.procs.length now := by
  unfold handleCall
  rw [List.getD_eq_getElem?_getD] at hgd
  simp [hc, hr, hp, hgd]

lemma parentsBelow_iff {procs : List Process} : parentsBelow procs = true ↔
    ∀ k p j, procs.get? k = some p → p.parentRef = some j → j < k := by
  rw [parentsBelow, List.all_eq_true]
  constructor
  · intro h k p j hk hj
    have hklen : k < procs.length := (List.get?_eq_some.mp hk).1
    have hb := h k (List.mem_range.mpr hklen)
    simp only [hk] at hb
    simp only [hj] at hb
    exact of_decide_eq_true hb
  · intro h k hk
    cases hg : procs.get? k with
    | none => simp [hg]
    | some p =>
      cases hp : p.parentRef with
      | none => simp [hg, hp]
      | some j =>
        simp only [hg, hp, decide_eq_true_eq]
        exact h k p j hg hp

lemma sharedMaps_iff {procs : List Process} : sharedMaps procs = true ↔
    ∀ k pc j pp, procs.get? k = some pc → pc.args = none → pc.parentRef = some j →
      procs.get? j = some pp → pc.syscallsRef = pp.syscallsRef := by
  rw [sharedMaps, List.all_eq_true]
  constructor
  · intro h k pc j pp hk hargs hpar hj
    have hklen : k < procs.length := (List.get?_eq_some.mp hk).1
    have hb := h k (List.mem_range.mpr hklen)
    simp only [hk] at hb
    simp only [hargs, hpar] at hb
    simp only [hj] at hb
    exact of_decide_eq_true hb
  · intro h k hk
    cases hg : procs.get? k with
    | none => simp [hg]
    | some pc =>
      cases hargs : pc.args with
      | some a => simp [hg, hargs]
      | none =>
        cases hpar : pc.parentRef with
        | none => simp [hg, hargs, hpar]
        | some j =>
          cases hj : procs.get? j with
          | none => simp only [hg, hargs, hpar, hj]
          | some pp =>
            simp only [hg, hargs, hpar, hj, decide_eq_true_eq]
            exact h k pc j pp hg hargs hpar hj

lemma hasThreadChild_false_iff {procs : List Process} {r : Nat} :
    hasThreadChild procs r = false ↔
    ∀ k pc, procs.get? k = some pc → pc.args = none → pc.parentRef ≠ some r := by
  rw [hasThreadChild, List.any_eq_false]
  constructor
  · intro h k pc hk hargs hpar
    have hklen : k < procs.length := (List.get?_eq_some.mp hk).1
    have hb := h k (List.mem_range.mpr hklen)
    simp only [hk] at hb
    simp only [hargs, hpar] at hb
    simp at hb
  · intro h k hk
    cases hg : procs.get? k with
    | none => simp [hg]
    | some pc =>
      cases hargs : pc.args with
      | some a => simp [hg, hargs]
      | none =>
        simp only [hg, hargs, Option.isNone_none, Bool.true_and]
        intro hdec
        exact h k pc hg hargs (of_decide_eq_true hdec)

lemma bumpFromAux_fields (fuel : Nat) (procs : List Process) (t : Int) (i k : Nat) :
    ∀ pc', (bumpFromAux fuel procs t i).get? k = some pc' →
      ∃ pc, procs.get? k = some pc ∧ pc'.args = pc.args ∧
        pc'.parentRef = pc.parentRef ∧ pc'.syscallsRef = pc.syscallsRef := by
  induction fuel generalizing procs i with
  | zero =>
    intro pc' h
    exact ⟨pc', h, rfl, rfl, rfl⟩
  | succ f ih =>
    intro pc' h
    rw [bumpFromAux] at h
    cases hg : procs.get? i with
    | none =>
      rw [hg] at h
      exact ⟨pc', h, rfl, rfl, rfl⟩
    | some p =>
      simp only [hg] at h
      have hstep : ∀ (q : Process), q.args = p.args → q.parentRef = p.parentRef →
          q.syscallsRef = p.syscallsRef →
          ∀ m pc'', (procs.set i q).get? m = some pc'' →
          ∃ pc, procs.get? m = some pc ∧ pc''.args = pc.args ∧
            pc''.parentRef = pc.parentRef ∧ pc''.syscallsRef = pc.syscallsRef := by
        intro q hqa hqp hqs m pc'' hm
        by_cases hmi : m = i
        · subst hmi
          rw [List.get?_set_eq, hg] at hm
          cases hm
          exact ⟨p, hg, hqa, hqp, hqs⟩
        · rw [List.get?_set_ne _ _ (fun hh => hmi hh.symm)] at hm
          exact ⟨pc'', hm, rfl, rfl, rfl⟩
      cases hp : p.parentRef with
      | none =>
        simp only [hp] at h
        exact hstep { p with parentRef := none, child_samples := p.child_samples + t }
          rfl hp.symm rfl k pc' h
      | some j =>
        simp only [hp] at h
        by_cases hj : j < i
        · rw [if_pos hj] at h
          rcases ih _ j pc' h with ⟨pc2, hpc2, h1, h2, h3⟩
          rcases hstep { p with parentRef := some j, child_samples := p.child_samples + t }
            rfl hp.symm rfl k pc2 hpc2 with ⟨pc, hpc, g1, g2, g3⟩
          exact ⟨pc, hpc, h1.trans g1, h2.trans g2, h3.trans g3⟩
        · rw [if_neg hj] at h
          exact hstep { p with parentRef := some j, child_samples := p.child_samples + t }
            rfl hp.symm rfl k pc' h

lemma bumpAncestors_fields (procs : List Process) (t : Int) (o : Option Nat) (k : Nat) :
    ∀ pc', (bumpAncestors procs t o).get? k = some pc' →
      ∃ pc, procs.get? k = some pc ∧ pc'.args = pc.args ∧
        pc'.parentRef = pc.parentRef ∧ pc'.syscallsRef = pc.syscallsRef := by
  cases o with
  | none =>
    intro pc' h
    exact ⟨pc', h, rfl, rfl, rfl⟩
  | some i => exact bumpFromAux_fields (i + 1) procs t i k

lemma bumpAncestors_length (procs : List Process) (t : Int) (o : Option Nat) :
    (bumpAncestors procs t o).length = procs.length := by
  cases o with
  | none => rfl
  | some i =>
    rw [bumpAncestors]
    rw [bumpFrom]
    generalize i + 1 = fuel
    induction fuel generalizing procs i with
    | zero => rfl
    | succ f ih =>
      rw [bumpFromAux]
      cases hg : procs.get? i with
      | none => rfl
      | some p =>
        simp only [hg]
        cases hp : p.parentRef with
        | none => simp only [hp, List.length_set]
        | some j =>
          simp only [hp]
          by_cases hj : j < i
          · rw [if_pos hj, ih _ j, List.length_set]
          · rw [if_neg hj, List.length_set]


lemma handleCall_clone_procs (st : Collapser) (c : Call) (now : Int)
    (hc : c.func = "clone") :
    (handleCall st c now).1.procs = st.procs ++
      [{ args := none, pid := c.retcode, parentRef := procOf st c.pid, tBegin := c.ts,
         tEnd := none, child_samples := 0,
         syscallsRef :=
           match procOf st c.pid with
           | some pr => (st.procs.getD pr default).syscallsRef
           | none => st.maps.length,
         retcode := none }] := by
  unfold handleCall
  cases h : procOf st c.pid <;> simp [hc, h]

lemma handleCall_execve_new_procs (st : Collapser) (c : Call) (now : Int)
    (hc : c.func = "execve") (hr : c.retcode = Ret.int 0)
    (hp : procOf st c.pid = none) :
    (handleCall st c now).1.procs = st.procs ++
      [{ args := c.args, pid := Ret.int c.pid, parentRef := none, tBegin := c.ts,
         tEnd := none, child_samples := 0, syscallsRef := st.maps.length,
         retcode := none }] := by
  unfold handleCall
  simp [hc, hr, hp]

lemma handleCall_atexit_known_state (st : Collapser) (c : Call) (now : Int) (r : Nat)
    (p : Process) (hc : c.func = "atexit") (hp : procOf st c.pid = some r)
    (hgd : st.procs.getD r default = p) :
    (handleCall st c now).1 =
      recordFinished
        { st with pmap := pmapErase st.pmap (Ret.int c.pid),
                  procs := st.procs.set r
                    { p with retcode := some c.retcode, tEnd := some c.ts } }
        r now := by
  unfold handleCall
  rw [List.getD_eq_getElem?_getD] at hgd
  simp [hc, hp, hgd]

lemma handleCall_other_procs (st : Collapser) (c : Call) (now : Int)
    (h1 : c.func ≠ "clone") (h2 : c.func ≠ "execve") (h3 : c.func ≠ "atexit") :
    (handleCall st c now).1.procs = st.procs := by
  unfold handleCall
  simp only [h1, h2, h3, if_false]
  repeat' split
  all_goals rfl

lemma recordFinished_sharedProp (st : Collapser) (r : Nat) (now : Int)
    (h : ∀ k pc j pp, st.procs.get? k = some pc → pc.args = none →
      pc.parentRef = some j → st.procs.get? j = some pp →
      pc.syscallsRef = pp.syscallsRef) :
    ∀ k pc j pp, (recordFinished st r now).procs.get? k = some pc → pc.args = none →
      pc.parentRef = some j → (recordFinished st r now).procs.get? j = some pp →
      pc.syscallsRef = pp.syscallsRef := by
  unfold recordFinished
  cases ha : (st.procs.getD r default).args with
  | none =>
    simp only [ha]
    exact h
  | some a =>
    simp only [ha]
    intro k pc' j pp' hk hargs hpar hj
    rcases bumpAncestors_fields st.procs _ _ k pc' hk with ⟨pc, hpc, e1, e2, e3⟩
    rcases bumpAncestors_fields st.procs _ _ j pp' hj with ⟨pp, hpp, f1, f2, f3⟩
    rw [e1] at hargs
    rw [e2] at hpar
    rw [e3, f3]
    exact h k pc j pp hpc hargs hpar hpp


lemma handleCall_atexit_none_state (st : Collapser) (c : Call) (now : Int)
    (hc : c.func = "atexit") (hp : procOf st c.pid = none) :
    (handleCall st c now).1 = st := by
  unfold handleCall
  simp [hc, hp]

/-! ## Claim theorems -/

/-- Claim C1, counterexample: on scenario A1's two lines the pipeline
emits exactly one folded row, but that row is
`/bin/ls(100) ['ls'] 500000` — `arg0` is the decoded first execve
argument, the full path — not the claimed `ls(100) ['ls'] 500000`. -/
theorem C1_cex :
    parseLines [] [a1line1, a1line2] = ([], Except.ok a1calls) ∧
    renderRows (runCalls collapserInit a1calls 0).1 0 =
      some ["/bin/ls(100) [" ++ apos ++ "ls" ++ apos ++ "] 500000"] ∧
    ("/bin/ls(100) [" ++ apos ++ "ls" ++ apos ++ "] 500000" ≠
      "ls(100) [" ++ apos ++ "ls" ++ apos ++ "] 500000") := by
  refine ⟨by decide, by decide, by decide⟩

/-- Claim C1, amended: feeding the parser scenario A1's two lines and
passing the resulting calls to the collapser makes render emit exactly
one folded row, and that row is `/bin/ls(100) ['ls'] 500000`
(self-time 0.5 s = 500000 microsecond samples). -/
theorem C1_single_exec_exit :
    parseLines [] [a1line1, a1line2] = ([], Except.ok a1calls) ∧
    (runCalls collapserInit a1calls 0).2 = none ∧
    renderRows (runCalls collapserInit a1calls 0).1 0 =
      some ["/bin/ls(100) [" ++ apos ++ "ls" ++ apos ++ "] 500000"] := by
  refine ⟨by decide, by decide, by decide⟩

/-- Claim C2, counterexample: a `read` whose args string begins with
`<pipe:` at its very first character is NOT elided — the code checks
characters 1..6 (`args[1:7]`), so this call falls through to the counter
update and the `read` counter becomes one call, 100000 microseconds. -/
theorem C2_cex :
    strStarts "<pipe:[42]>, \"x\", 10" "<pipe:" = true ∧
    cReadPipeAt0.func = "read" ∧
    cReadPipeAt0.args = some "<pipe:[42]>, \"x\", 10" ∧
    (runCalls collapserInit [cExec100] 0).1.maps = [[]] ∧
    (runCalls collapserInit [cExec100, cReadPipeAt0] 0).2 = none ∧
    (runCalls collapserInit [cExec100, cReadPipeAt0] 0).1.maps =
      [[("read", ⟨1, 100000⟩)]] := by
  refine ⟨by decide, by decide, by decide, by decide, by decide, by decide⟩

/-- Claim C2, amended: the pipe elision triggers exactly when characters
1..6 of the args string (the text right after the first character) equal
`<pipe:`; such a `read` leaves the whole collapser state unchanged, so
no syscall counter of any process changes. -/
theorem C2_pipe_elide (st : Collapser) (c : Call) (now : Int) (a : String)
    (hfunc : c.func = "read") (hargs : c.args = some a)
    (hpipe : pySlice a 1 7 = "<pipe:") :
    handleCall st c now = (st, none) := by
  simp [handleCall, hfunc, hargs, hpipe]

/-- Witness for `C2_pipe_elide` at a concrete pipe read. -/
theorem C2_pipe_elide_witness :
    pySlice "3<pipe:[42]>, \"x\", 10" 1 7 = "<pipe:" ∧
    handleCall collapserInit
        ⟨100, 0, "read", some "3<pipe:[42]>, \"x\", 10", Ret.int 0, none, some 100000⟩ 0 =
      (collapserInit, none) :=
  ⟨by decide, C2_pipe_elide collapserInit _ 0 _ rfl rfl (by decide)⟩

/-- Claim C3, counterexample: after `execve(100)`, `clone → 200`,
`execve(100)` again, the live node of pid 200 has `args = none` and
parent node 0, but its syscall map reference is the old map 0 while the
parent now holds fresh map 1; a subsequent `read` by pid 200 updates map
0 (the retired epoch's counters), not the parent's current map 1. -/
theorem C3_cex :
    (runCalls collapserInit c3trace 0).2 = none ∧
    pmapLookup (runCalls collapserInit c3trace 0).1.pmap (Ret.int 200) = some 1 ∧
    pmapLookup (runCalls collapserInit c3trace 0).1.pmap (Ret.int 100) = some 0 ∧
    ((runCalls collapserInit c3trace 0).1.procs.getD 1 default).args = none ∧
    ((runCalls collapserInit c3trace 0).1.procs.getD 1 default).parentRef = some 0 ∧
    ((runCalls collapserInit c3trace 0).1.procs.getD 1 default).syscallsRef = 0 ∧
    ((runCalls collapserInit c3trace 0).1.procs.getD 0 default).syscallsRef = 1 ∧
    (runCalls collapserInit (c3trace ++ [cRead200]) 0).1.maps =
      [[("read", ⟨1, 100000⟩)], []] := by
  refine ⟨by decide, by decide, by decide, by decide, by decide, by decide, by decide,
    by decide⟩

/-- Claim C4, counterexample: in `c4trace` the node retired for pid 200
(store index 1) has args and self-time 2 s, and right after its
retirement the ancestor `child_samples` total holds those 2000000
microseconds; but after its parent's later execve the ancestors' total
is 0 — the retired node's self-time was dropped. -/
theorem C4_cex :
    (runCalls collapserInit c4trace 0).2 = none ∧
    (runCalls collapserInit c4trace 0).1.finished = [1, 3] ∧
    ((runCalls collapserInit c4trace 0).1.procs.getD 1 default).args =
      some "\"/bin/b\", [\"b\"], 0x0" ∧
    ((runCalls collapserInit c4trace 0).1.procs.getD 1 default).parentRef = some 0 ∧
    selfTime (runCalls collapserInit c4trace 0).1.maps
      ((runCalls collapserInit c4trace 0).1.procs.getD 1 default) 0 = 2000000 ∧
    ancSum (runCalls collapserInit [cExec100, cClone200, cExec200, cExit200] 0).1.procs
      (((runCalls collapserInit [cExec100, cClone200, cExec200, cExit200] 0).1.procs.getD
          1 default).parentRef) = 2000000 ∧
    ancSum (runCalls collapserInit c4trace 0).1.procs
      (((runCalls collapserInit c4trace 0).1.procs.getD 1 default).parentRef) = 0 := by
  refine ⟨by decide, by decide, by decide, by decide, by decide, by decide, by decide⟩

/-- Claim C5: for a well-formed stream — one the collapser processes
without an exception — the key set of `pmap` after any prefix is exactly
the spec's live set: pids added as a clone's retcode or an initial
successful execve's pid and removed by their atexit. -/
theorem C5_pmap_keys (cs : List Call) (now : Int)
    (hok : (runCalls collapserInit cs now).2 = none) :
    ∀ k, k ∈ pmapKeys (runCalls collapserInit cs now).1.pmap ↔ k ∈ liveSpec cs := by
  exact runCalls_keys cs collapserInit now [] (by simp [collapserInit, pmapKeys]) hok

/-- Witness for `C5_pmap_keys` on a concrete stream. -/
theorem C5_pmap_keys_witness :
    (runCalls collapserInit [cExec100, cClone200, cExit200] 0).2 = none ∧
    (∀ k, k ∈ pmapKeys (runCalls collapserInit [cExec100, cClone200, cExit200] 0).1.pmap ↔
      k ∈ liveSpec [cExec100, cClone200, cExit200]) :=
  ⟨by decide, C5_pmap_keys [cExec100, cClone200, cExit200] 0 (by decide)⟩

/-- Claim C6: scenario A2 — the unfinished half stores the prefix
`read(3,` under pid 100 and emits nothing; the resumed half emits one
`read` call with retcode 1 and elapsed 0.2 s (200000 microseconds),
the resumed name having matched the prefix. -/
theorem C6_unfinished_resumed :
    parseLine [] a2line1 = ([(100, "read(3,")], Except.ok none) ∧
    parseLine [(100, "read(3,")] a2line2 =
      ([], Except.ok (some ⟨100, 1200000, "read", some "3,\"x\", 1",
        Ret.int 1, none, some 200000⟩)) := by
  refine ⟨by decide, by decide⟩

/-- Claim C7, counterexample: `read(3) = -1 EAGAIN` has a status token
and no bracketed duration, yet `parse_call` raises an `AssertionError`
instead of parsing successfully with elapsed zero. -/
theorem C7_cex :
    pyRsplitOnce " = " "read(3) = -1 EAGAIN" = some ("read(3)", "-1 EAGAIN") ∧
    pySplitOnce " " "-1 EAGAIN" = some ("-1", "EAGAIN") ∧
    parseCall "read(3) = -1 EAGAIN" = Except.error "AssertionError" := by
  refine ⟨by decide, by decide, by decide⟩

/-- Claim C7, amended: after splitting at the last ` = `, elapsed zero
arises only when nothing follows the return value; when text follows,
the final whitespace-separated token must be angle-bracketed (it is
decoded as the duration, any text before it being the status), and a
non-bracketed final token makes parsing fail with an assertion error. -/
theorem C7_elapsed_parsing :
    (∀ s callL rest : String,
      strStarts s "+++ exited with " = false → strStarts s "--- " = false →
      pyRsplitOnce " = " s = some (callL, rest) → pySplitOnce " " rest = none →
      parseCall s = Except.ok ⟨(splitFuncArgs callL).1, some (splitFuncArgs callL).2,
        (match pyInt rest with | some n => Ret.int n | none => Ret.str rest),
        none, some 0⟩) ∧
    (∀ (s callL rest rv after status elTok : String) (q : Int),
      strStarts s "+++ exited with " = false → strStarts s "--- " = false →
      pyRsplitOnce " = " s = some (callL, rest) →
      pySplitOnce " " rest = some (rv, after) →
      pyRsplitOnce " " after = some (status, elTok) →
      strStarts elTok "<" = true → strEnds elTok ">" = true →
      pyFloatUs (pySlice elTok 1 (strLen elTok - 1)) = some q →
      parseCall s = Except.ok ⟨(splitFuncArgs callL).1, some (splitFuncArgs callL).2,
        (match pyInt rv with | some n => Ret.int n | none => Ret.str rv),
        some status, some q⟩) ∧
    (∀ s callL rest rv after : String,
      strStarts s "+++ exited with " = false → strStarts s "--- " = false →
      pyRsplitOnce " = " s = some (callL, rest) →
      pySplitOnce " " rest = some (rv, after) →
      (strStarts (match pyRsplitOnce " " after with
          | some (_, el) => el
          | none => after) "<" &&
        strEnds (match pyRsplitOnce " " after with
          | some (_, el) => el
          | none => after) ">") = false →
      parseCall s = Except.error "AssertionError") := by
  refine ⟨?_, ?_, ?_⟩
  · intro s callL rest h0 h1 h2 h3
    simp only [parseCall, h0, h1, h2, h3, Bool.false_eq_true, if_false]
  · intro s callL rest rv after status elTok q h0 h1 h2 h3 h4 h5 h6 h7
    simp only [parseCall, h0, h1, h2, h3, h4, h5, h6, h7, Bool.false_eq_true,
      if_false, if_true]
  · intro s callL rest rv after h0 h1 h2 h3 h4
    simp only [parseCall, h0, h1, h2, h3, Bool.false_eq_true, if_false]
    rcases hsp : pyRsplitOnce " " after with _ | ⟨st2, el⟩ <;> rw [hsp] at h4 <;> simp only []
    · rcases hs : strStarts after "<" with _ | _ <;> rw [hs] at h4 <;> simp [hs]
      · simp at h4
        simp [h4]
    · rcases hs : strStarts el "<" with _ | _ <;> rw [hs] at h4 <;> simp [hs]
      · simp at h4
        simp [h4]

/-- Witness for `C7_elapsed_parsing` at concrete lines for each shape. -/
theorem C7_elapsed_parsing_witness :
    parseCall "execve(x) = 0" =
      Except.ok ⟨"execve", some "x", Ret.int 0, none, some 0⟩ ∧
    parseCall "read(3) = -1 EAGAIN (Resource temporarily unavailable) <0.00001>" =
      Except.ok ⟨"read", some "3", Ret.int (-1),
        some "EAGAIN (Resource temporarily unavailable)", some 10⟩ ∧
    parseCall "read(3) = -1 EAGAIN" = Except.error "AssertionError" :=
  ⟨C7_elapsed_parsing.1 "execve(x) = 0" "execve(x)" "0"
      (by decide) (by decide) (by decide) (by decide),
   C7_elapsed_parsing.2.1 "read(3) = -1 EAGAIN (Resource temporarily unavailable) <0.00001>"
      "read(3)" "-1 EAGAIN (Resource temporarily unavailable) <0.00001>" "-1"
      "EAGAIN (Resource temporarily unavailable) <0.00001>"
      "EAGAIN (Resource temporarily unavailable)" "<0.00001>" 10
      (by decide) (by decide) (by decide) (by decide) (by decide) (by decide) (by decide)
      (by decide),
   C7_elapsed_parsing.2.2 "read(3) = -1 EAGAIN" "read(3)" "-1 EAGAIN" "-1" "EAGAIN"
      (by decide) (by decide) (by decide) (by decide) (by decide)⟩

/-- Claim C8, counterexample: a resumed half with no pending prefix and
a malformed line both make the parser raise an exception that escapes
(`KeyError`, `ValueError`) rather than return a diagnostic or warning. -/
theorem C8_cex :
    parseLine [] a2line2 = ([], Except.error "KeyError") ∧
    parseLine [] "100 1.0 garbage" = ([], Except.error "ValueError") := by
  refine ⟨by decide, by decide⟩

/-- Claim C8, amended: the parser signals these failures by raising —
a resumed half with no pending prefix raises `KeyError` (so it is not
silently dropped), a mismatched continuation raises `AssertionError`
(after the prefix has been popped), and a structurally malformed body
raises `ValueError`; the exceptions propagate to the caller. -/
theorem C8_exceptions :
    (∀ (pending : Pending) (line s0 s1 s2 : String) (pid ts : Int),
      pySplitNone2 line = [s0, s1, s2] → pyInt s0 = some pid →
      pyFloatUs s1 = some ts → strEnds s2 " <unfinished ...>" = false →
      strStarts s2 "<... " = true → pendingLookup pending pid = none →
      parseLine pending line = (pending, Except.error "KeyError")) ∧
    parseLine [(100, "write(3,")] a2line2 = ([], Except.error "AssertionError") ∧
    parseLine [] "100 1.0 garbage" = ([], Except.error "ValueError") := by
  refine ⟨?_, by decide, by decide⟩
  intro pending line s0 s1 s2 pid ts hsplit hpid hts hunf hres hpend
  simp only [parseLine, hsplit, hpid, hts, hunf, hres, hpend, List.get?,
    Bool.false_eq_true, if_false, if_true]

/-- Witness for `C8_exceptions` at the concrete orphaned resumed half. -/
theorem C8_exceptions_witness :
    parseLine [] a2line2 = ([], Except.error "KeyError") :=
  C8_exceptions.1 [] a2line2 "100" "1.2" "<... read resumed> \"x\", 1) = 1 <0.2>"
    100 1200000 (by decide) (by decide) (by decide) (by decide) (by decide) (by decide)

/-- Claim C9: a node retired with `args = none` adds nothing —
`record_finished` returns the state unchanged, so no folded row can
come from it; and in scenario A6 the two `open` calls of the never-exec
child 201 land in parent 200's counters, render emitting only 200's
rows with `open(2 calls)`. -/
theorem C9_thread_nodes :
    (∀ (st : Collapser) (r : Nat) (now : Int),
      (st.procs.getD r default).args = none → recordFinished st r now = st) ∧
    ((runCalls collapserInit a6calls 0).2 = none ∧
     (runCalls collapserInit a6calls 0).1.finished = [0] ∧
     ((runCalls collapserInit a6calls 0).1.procs.getD 1 default).args = none ∧
     renderRows (runCalls collapserInit a6calls 0).1 0 =
       some ["/bin/a(200) [" ++ apos ++ "a" ++ apos ++ "] 2800000",
             "/bin/a(200) [" ++ apos ++ "a" ++ apos ++ "];open(2 calls) 200000"]) := by
  constructor
  · intro st r now h
    simp only [recordFinished]
    rw [h]
  · refine ⟨by decide, by decide, by decide, by decide⟩

/-- Witness for `C9_thread_nodes` retiring an args-less node. -/
theorem C9_thread_nodes_witness :
    recordFinished collapserInit 0 0 = collapserInit :=
  C9_thread_nodes.1 collapserInit 0 0 (by decide)

/-- Claim C10: `handle_call` on an `atexit` whose pid is not in `pmap`
raises `KeyError` from `pmap.pop` before mutating anything: the returned
state is the input state, `pmap` and `finished` included. -/
theorem C10_atexit_missing (st : Collapser) (c : Call) (now : Int)
    (hfunc : c.func = "atexit") (hmiss : procOf st c.pid = none) :
    handleCall st c now = (st, some "KeyError") := by
  simp [handleCall, hfunc, hmiss]

/-- Witness for `C10_atexit_missing` on the empty collapser. -/
theorem C10_atexit_missing_witness :
    handleCall collapserInit ⟨5, 0, "atexit", none, Ret.int 0, none, none⟩ 0 =
      (collapserInit, some "KeyError") :=
  C10_atexit_missing collapserInit _ 0 rfl (by decide)

/-- Claim C4, amended: retiring a node with args appends it to
`finished` and adds its self-time to `child_samples` of exactly the
nodes on its ancestor chain; the contribution persists until an
ancestor performs its own successful execve, which resets that
ancestor's live node's `child_samples` to zero, dropping prior
contributions from the new epoch's accounting (the pre-exec snapshot
keeps its own copy). -/
theorem C4_record :
    (∀ (st : Collapser) (r : Nat) (p : Process) (now : Int),
      st.procs.get? r = some p → p.args ≠ none →
      chainOk st.procs p.parentRef = true →
      (recordFinished st r now).finished = st.finished ++ [r] ∧
      (recordFinished st r now).maps = st.maps ∧
      ∀ k, (recordFinished st r now).procs.get? k =
        (if k ∈ ancRefs st.procs p.parentRef
         then (st.procs.get? k).map
           (fun q => { q with child_samples :=
             q.child_samples + selfTime st.maps p now })
         else st.procs.get? k)) ∧
    (∀ (st : Collapser) (c : Call) (now : Int) (r : Nat) (p : Process),
      c.func = "execve" → c.retcode = Ret.int 0 → procOf st c.pid = some r →
      st.procs.get? r = some p → chainOkFrom st.procs r = true →
      (handleCall st c now).1.procs.get? r =
        some { p with tBegin := c.ts, tEnd := none, args := c.args,
                      child_samples := 0, syscallsRef := st.maps.length }) := by
  constructor
  · intro st r p now hget hargs hok
    have hgd : st.procs.getD r default = p := by
      rw [List.getD_eq_get?, hget]
      rfl
    rcases ha : p.args with _ | a
    · exact absurd ha hargs
    · unfold recordFinished
      simp only [hgd, ha]
      refine ⟨trivial, trivial, ?_⟩
      intro k
      cases hpar : p.parentRef with
      | none =>
        simp [bumpAncestors, ancRefs]
      | some j =>
        have hokj : chainOkFrom st.procs j = true := by
          rw [hpar] at hok
          simpa [chainOk] using hok
        have hb := bumpFromAux_get? (j + 1) st.procs (selfTime st.maps p now) j
          (by omega) hokj k
        simpa [bumpAncestors, bumpFrom, ancRefs] using hb
  · intro st c now r p hf hr hp hget hchain
    have hrlen : r < st.procs.length := (List.get?_eq_some.mp hget).1
    have hgd : st.procs.getD r default = p := by
      rw [List.getD_eq_get?, hget]
      rfl
    rw [handleCall_execve_known_procs st c now r p hf hr hp hgd]
    have hget1r : ((st.procs.set r
        { p with tBegin := c.ts, tEnd := none, args := c.args,
                 child_samples := 0, syscallsRef := st.maps.length }) ++
        [{ p with tEnd := some c.ts }]).get? r =
        some { p with tBegin := c.ts, tEnd := none, args := c.args,
                      child_samples := 0, syscallsRef := st.maps.length } := by
      rw [List.get?_append (by simp [hrlen]), List.get?_set_eq, hget]
      rfl
    have hcat := List.get?_concat_length
      (st.procs.set r
        { p with tBegin := c.ts, tEnd := none, args := c.args,
                 child_samples := 0, syscallsRef := st.maps.length })
      ({ p with tEnd := some c.ts })
    rw [List.length_set] at hcat
    have hgd2 : ((st.procs.set r
        { p with tBegin := c.ts, tEnd := none, args := c.args,
                 child_samples := 0, syscallsRef := st.maps.length }) ++
        [{ p with tEnd := some c.ts }]).getD st.procs.length default =
        { p with tEnd := some c.ts } := by
      rw [List.getD_eq_get?, hcat]
      rfl
    unfold recordFinished
    simp only [hgd2]
    rcases ha : p.args with _ | a
    · simp only [ha]
      rw [ha] at hget1r
      exact hget1r
    · simp only [ha]
      cases hpar : p.parentRef with
      | none =>
        rw [ha, hpar] at hget1r
        simpa [bumpAncestors] using hget1r
      | some j =>
        have hj : j < r ∧ chainOkFromAux r st.procs j = true := by
          rw [chainOkFrom] at hchain
          simp only [chainOkFromAux, hget, hpar] at hchain
          by_cases hjr : j < r
          · rw [if_pos hjr] at hchain
            exact ⟨hjr, hchain⟩
          · rw [if_neg hjr] at hchain
            simp at hchain
        have hok1 : chainOkFrom ((st.procs.set r
            { p with tBegin := c.ts, tEnd := none, args := c.args,
                     child_samples := 0, syscallsRef := st.maps.length }) ++
            [{ p with tEnd := some c.ts }]) j = true := by
          have hagree : ∀ m, m ≤ j →
              ((st.procs.set r
                { p with tBegin := c.ts, tEnd := none, args := c.args,
                         child_samples := 0, syscallsRef := st.maps.length }) ++
                [{ p with tEnd := some c.ts }]).get? m = st.procs.get? m := by
            intro m hm
            rw [List.get?_append (by simp; omega), List.get?_set_ne _ _ (by omega)]
          have hcongr := chainOkFromAux_congr (j + 1) st.procs
            ((st.procs.set r
              { p with tBegin := c.ts, tEnd := none, args := c.args,
                       child_samples := 0, syscallsRef := st.maps.length }) ++
              [{ p with tEnd := some c.ts }]) j hagree
          rw [chainOkFrom, hcongr.1,
            chainOkFromAux_fuel (j + 1) r st.procs j (by omega) hj.1]
          exact hj.2
        have hb := bumpFromAux_get? (j + 1)
          ((st.procs.set r
            { p with tBegin := c.ts, tEnd := none, args := c.args,
                     child_samples := 0, syscallsRef := st.maps.length }) ++
            [{ p with tEnd := some c.ts }])
          (selfTime (st.maps ++ [[]]) { p with tEnd := some c.ts } now) j
          (by omega) hok1 r
        have hnot : r ∉ ancRefsFrom ((st.procs.set r
            { p with tBegin := c.ts, tEnd := none, args := c.args,
                     child_samples := 0, syscallsRef := st.maps.length }) ++
            [{ p with tEnd := some c.ts }]) j := by
          intro hmem
          rw [ancRefsFrom] at hmem
          have := ancRefsFromAux_le (j + 1) _ j r hmem
          omega
        rw [if_neg hnot] at hb
        rw [ha, hpar] at hb hget1r
        simp only [bumpAncestors, bumpFrom]
        rw [hb]
        exact hget1r

/-- Witness for `C4_record`: part one retires the execed node of pid 200
and appends it to `finished`; part two shows pid 100's second execve
resets the live node with `child_samples = 0` and a fresh map. -/
theorem C4_record_witness :
    ((recordFinished (runCalls collapserInit [cExec100, cClone200, cExec200] 0).1
        1 5000000).finished =
      (runCalls collapserInit [cExec100, cClone200, cExec200] 0).1.finished ++ [1]) ∧
    ((handleCall (runCalls collapserInit [cExec100] 0).1 cExec100b 0).1.procs.get? 0 =
      some { (⟨some "\"/bin/a\", [\"a\"], 0x0", Ret.int 100, none, 0, none, 0, 0, none⟩ :
              Process) with
             tBegin := cExec100b.ts, tEnd := none, args := cExec100b.args,
             child_samples := 0,
             syscallsRef := (runCalls collapserInit [cExec100] 0).1.maps.length }) :=
  ⟨(C4_record.1 (runCalls collapserInit [cExec100, cClone200, cExec200] 0).1 1
      ⟨some "\"/bin/b\", [\"b\"], 0x0", Ret.int 200, some 0, 1000000, none, 0, 1, none⟩
      5000000 (by decide) (by decide) (by decide)).1,
   C4_record.2 (runCalls collapserInit [cExec100] 0).1 cExec100b 0 0
      ⟨some "\"/bin/a\", [\"a\"], 0x0", Ret.int 100, none, 0, none, 0, 0, none⟩
      rfl rfl (by decide) (by decide) (by decide)⟩

/-- Claim C3, amended: the sharing invariant — every node with
`args = none` has the same syscall-map reference as its parent — is
preserved by every `handle_call` except a successful execve of a node
that currently has a live thread-like (args-less) child: that execve
detaches the parent onto a fresh map, leaving such children aliasing
the pre-exec epoch's map.  Preservation is stated for states whose
parent references point strictly below each node, which allocation
guarantees. -/
theorem C3_shared_maps (st : Collapser) (c : Call) (now : Int)
    (hdec : parentsBelow st.procs = true)
    (hinv : sharedMaps st.procs = true)
    (hexec : ∀ r, c.func = "execve" → c.retcode = Ret.int 0 →
      procOf st c.pid = some r →
      c.args.isSome = true ∧ hasThreadChild st.procs r = false) :
    sharedMaps (handleCall st c now).1.procs = true := by
  rw [sharedMaps_iff] at hinv ⊢
  rw [parentsBelow_iff] at hdec
  by_cases hc : c.func = "clone"
  · rw [handleCall_clone_procs st c now hc]
    intro k pc j pp hk hargs hpar hj
    by_cases hklen : k < st.procs.length
    · rw [List.get?_append hklen] at hk
      have hjk : j < k := hdec k pc j hk hpar
      rw [List.get?_append (by omega)] at hj
      exact hinv k pc j pp hk hargs hpar hj
    · by_cases hke : k = st.procs.length
      · subst hke
        rw [List.get?_concat_length] at hk
        cases hk
        have hpo : procOf st c.pid = some j := hpar
        by_cases hjlen : j < st.procs.length
        · rw [List.get?_append hjlen] at hj
          have hgdj : st.procs.getD j default = pp := by
            rw [List.getD_eq_get?, hj]
            rfl
          show (match procOf st c.pid with
                | some pr => (st.procs.getD pr default).syscallsRef
                | none => st.maps.length) = pp.syscallsRef
          simp only [hpo, hgdj]
        · by_cases hje : j = st.procs.length
          · subst hje
            have hcat := List.get?_concat_length st.procs
              ({ args := none, pid := c.retcode, parentRef := procOf st c.pid,
                 tBegin := c.ts, tEnd := none, child_samples := 0,
                 syscallsRef :=
                   match procOf st c.pid with
                   | some pr => (st.procs.getD pr default).syscallsRef
                   | none => st.maps.length,
                 retcode := none } : Process)
            rw [hcat] at hj
            cases hj
            rfl
          · rw [List.get?_len_le (by simp; omega)] at hj
            cases hj
      · rw [List.get?_len_le (by simp; omega)] at hk
        cases hk
  · by_cases he : c.func = "execve"
    · by_cases hr : c.retcode = Ret.int 0
      · cases hp : procOf st c.pid with
        | none =>
          rw [handleCall_execve_new_procs st c now he hr hp]
          intro k pc j pp hk hargs hpar hj
          by_cases hklen : k < st.procs.length
          · rw [List.get?_append hklen] at hk
            have hjk : j < k := hdec k pc j hk hpar
            rw [List.get?_append (by omega)] at hj
            exact hinv k pc j pp hk hargs hpar hj
          · by_cases hke : k = st.procs.length
            · subst hke
              rw [List.get?_concat_length] at hk
              cases hk
              cases hpar
            · rw [List.get?_len_le (by simp; omega)] at hk
              cases hk
        | some r =>
          rcases hexec r he hr hp with ⟨hargs0, hthread⟩
          rw [hasThreadChild_false_iff] at hthread
          rcases Option.isSome_iff_exists.mp hargs0 with ⟨ca, hca⟩
          rw [handleCall_execve_known_procs st c now r (st.procs.getD r default)
            he hr hp rfl]
          apply recordFinished_sharedProp
          intro k pc j pp hk hargs hpar hj
          by_cases hklen : k < st.procs.length
          · rw [List.get?_append (by rw [List.length_set]; exact hklen)] at hk
            by_cases hkr : k = r
            · subst hkr
              rw [List.get?_set_eq] at hk
              cases hq : st.procs.get? k with
              | none => rw [hq] at hk; cases hk
              | some q =>
                rw [hq] at hk
                cases hk
                have hcargs : c.args = none := hargs
                rw [hca] at hcargs
                cases hcargs
            · rw [List.get?_set_ne _ _ (fun hh => hkr hh.symm)] at hk
              have hjk : j < k := hdec k pc j hk hpar
              have hjr : j ≠ r := by
                intro hje
                subst hje
                exact hthread k pc hk hargs hpar
              rw [List.get?_append (by rw [List.length_set]; omega)] at hj
              rw [List.get?_set_ne _ _ (fun hh => hjr hh.symm)] at hj
              exact hinv k pc j pp hk hargs hpar hj
          · by_cases hke : k = st.procs.length
            · subst hke
              have hcat : ((st.procs.set r
                  { st.procs.getD r default with
                    tBegin := c.ts, tEnd := none, args := c.args,
                    child_samples := 0, syscallsRef := st.maps.length }) ++
                  [{ st.procs.getD r default with tEnd := some c.ts }]).get?
                  st.procs.length =
                  some { st.procs.getD r default with tEnd := some c.ts } := by
                have h0 := List.get?_concat_length (st.procs.set r
                  { st.procs.getD r default with
                    tBegin := c.ts, tEnd := none, args := c.args,
                    child_samples := 0, syscallsRef := st.maps.length })
                  ({ st.procs.getD r default with tEnd := some c.ts })
                rw [List.length_set] at h0
                exact h0
              rw [hcat] at hk
              cases hk
              by_cases hrlen : r < st.procs.length
              · obtain ⟨q, hq⟩ : ∃ q, st.procs.get? r = some q := by
                  cases hg : st.procs.get? r with
                  | none =>
                    rw [List.get?_eq_none] at hg
                    omega
                  | some q => exact ⟨q, rfl⟩
                have hgd0 : st.procs.getD r default = q := by
                  rw [List.getD_eq_get?, hq]
                  rfl
                have hqargs : q.args = none := by rw [← hgd0]; exact hargs
                have hqpar : q.parentRef = some j := by rw [← hgd0]; exact hpar
                have hjr2 : j < r := hdec r q j hq hqpar
                rw [List.get?_append (by rw [List.length_set]; omega)] at hj
                rw [List.get?_set_ne _ _ (by omega)] at hj
                have hqs : q.syscallsRef = pp.syscallsRef :=
                  hinv r q j pp hq hqargs hqpar hj
                show (st.procs.getD r default).syscallsRef = pp.syscallsRef
                rw [hgd0]
                exact hqs
              · have hgd0 : st.procs.getD r default = default := by
                  rw [List.getD_eq_get?, List.get?_len_le (by omega)]
                  rfl
                have hnone : (default : Process).parentRef = some j := by
                  rw [← hgd0]
                  exact hpar
                cases hnone
            · have hnone : ((st.procs.set r
                  { st.procs.getD r default with
                    tBegin := c.ts, tEnd := none, args := c.args,
                    child_samples := 0, syscallsRef := st.maps.length }) ++
                  [{ st.procs.getD r default with tEnd := some c.ts }]).get? k =
                  none := by
                apply List.get?_len_le
                simp only [List.length_append, List.length_set, List.length_cons,
                  List.length_nil]
                omega
              rw [hnone] at hk
              cases hk
      · rw [handleCall_execve_fail st c now he hr]
        exact hinv
    · by_cases ha : c.func = "atexit"
      · cases hp : procOf st c.pid with
        | none =>
          rw [handleCall_atexit_none_state st c now ha hp]
          exact hinv
        | some r =>
          rw [handleCall_atexit_known_state st c now r (st.procs.getD r default)
            ha hp rfl]
          apply recordFinished_sharedProp
          intro k pc j pp hk hargs hpar hj
          by_cases hkr : k = r
          · subst hkr
            rw [List.get?_set_eq] at hk
            cases hq : st.procs.get? k with
            | none => rw [hq] at hk; cases hk
            | some q =>
              rw [hq] at hk
              cases hk
              have hgd0 : st.procs.getD k default = q := by
                rw [List.getD_eq_get?, hq]
                rfl
              have hqargs : q.args = none := by rw [← hgd0]; exact hargs
              have hqpar : q.parentRef = some j := by rw [← hgd0]; exact hpar
              have hjk : j < k := hdec k q j hq hqpar
              rw [List.get?_set_ne _ _ (by omega)] at hj
              have hqs : q.syscallsRef = pp.syscallsRef :=
                hinv k q j pp hq hqargs hqpar hj
              show (st.procs.getD k default).syscallsRef = pp.syscallsRef
              rw [hgd0]
              exact hqs
          · rw [List.get?_set_ne _ _ (fun hh => hkr hh.symm)] at hk
            by_cases hjr : j = r
            · subst hjr
              rw [List.get?_set_eq] at hj
              cases hq : st.procs.get? j with
              | none => rw [hq] at hj; cases hj
              | some q =>
                rw [hq] at hj
                cases hj
                have hgd0 : st.procs.getD j default = q := by
                  rw [List.getD_eq_get?, hq]
                  rfl
                have hqs : pc.syscallsRef = q.syscallsRef :=
                  hinv k pc j q hk hargs hpar hq
                show pc.syscallsRef = (st.procs.getD j default).syscallsRef
                rw [hgd0]
                exact hqs
            · rw [List.get?_set_ne _ _ (fun hh => hjr hh.symm)] at hj
              exact hinv k pc j pp hk hargs hpar hj
      · rw [handleCall_other_procs st c now hc he ha]
        exact hinv

/-- Witness for `C3_shared_maps`: a clone step on the state after the
root execve keeps the sharing invariant. -/
theorem C3_shared_maps_witness :
    sharedMaps (handleCall (runCalls collapserInit [cExec100] 0).1
      cClone200 0).1.procs = true :=
  C3_shared_maps (runCalls collapserInit [cExec100] 0).1 cClone200 0
    (by decide) (by decide) (fun _ hf => absurd hf (by decide))


end Flametrace
